import Mathlib

/-!
Verification of the rustypub ActivityStreams/JSON-LD document model.

The development shallowly embeds the two Rust source files:
  * `src/lib.rs`  — namespace `Lib`  (Context, ObjectType, Object, LinkType,
    Link, ObjectOrLink, JsonLdDocument and their accessors)
  * `src/core.rs` — namespace `Core` (Context, JsonLdDocument, ActorType,
    Actor, TryFrom<JsonLdDocument> for Actor)

JSON values are modelled by the inductive `Json` below, mirroring
`serde_json::Value`.  Object members are association lists of
`String × Json`; lists originating from the JSON codec have unique keys and
are kept in the map's iteration order (serde_json's `Map` is a `BTreeMap`):
`mapGet` is `Map::get`, `mapInsert` is `Map::insert` (replacing an existing
entry in place, inserting a fresh key at its ordered position) and
`mapRemove` removes the (unique) entry for a key, as happens when a
`#[serde(flatten)]` field receives the members not consumed by the declared
fields.  Numbers are modelled abstractly by `Int`; no behaviour relevant to
the claims depends on numeric fine structure.  Rust generics
`T: DeserializeOwned` / `T: Serialize` are modelled by passing the
conversion functions (`serde_json::from_value(..).ok()` becomes a
`Json → Option α` argument, `serde_json::to_value(..)` an `Option Json`).
-/

/-- serde_json::Value. -/
inductive Json where
  | null
  | bool (b : Bool)
  | num (n : Int)
  | str (s : String)
  | arr (elems : List Json)
  | obj (fields : List (String × Json))

/-- `Map::get`: the value stored for key `k` (maps have at most one entry
per key; on the association lists we use, the first match). -/
def mapGet (k : String) : List (String × Json) → Option Json
  | [] => none
  | (k', v) :: rest => if k' = k then some v else mapGet k rest

/-- Removal of the entry for key `k`, as performed on the leftover members
consumed by a `#[serde(flatten)]` field: declared wire names never reach
the flattened remainder. -/
def mapRemove (k : String) : List (String × Json) → List (String × Json)
  | [] => []
  | (k', v) :: rest => if k' = k then mapRemove k rest else (k', v) :: mapRemove k rest

/-- `Map::insert`: replace the entry for `k` if present, otherwise insert
`(k, v)` at its position in the `BTreeMap` key order. -/
def mapInsert (k : String) (v : Json) : List (String × Json) → List (String × Json)
  | [] => [(k, v)]
  | (k', v') :: rest =>
    if k = k' then (k, v) :: rest
    else if k < k' then (k, v) :: (k', v') :: rest
    else (k', v') :: mapInsert k v rest

/-- serde deserialization error (`serde_json::Error`), abstracted to the
distinctions the model needs.  `invalidText` stands for syntactically
malformed JSON text rejected by the codec before any struct logic runs. -/
inductive ParseError where
  | invalidText
  | notAnObject
  | missingField (name : String)
  | invalidField (name : String)
  | noVariantMatched

/-- serde serialization error: serializing a `#[serde(flatten)]` `Json`
field fails unless the value is a map. -/
inductive SerializeError where
  | cannotFlatten

namespace Lib

/-- src/lib.rs `Context`: `#[serde(untagged)]` enum whose only variant is
`Simple(String)`; it deserializes from exactly a JSON string. -/
inductive Context where
  | Simple (s : String)

def Context.deserialize : Json → Option Context
  | .str s => some (.Simple s)
  | _ => none

def Context.serialize : Context → Json
  | .Simple s => .str s

/-- src/lib.rs `impl Default for Context`. -/
def Context.default : Context :=
  .Simple "https://www.w3.org/ns/activitystreams"

/-- src/lib.rs `ObjectType`: the closed enumeration of activity, actor,
object and collection vocabulary terms. -/
inductive ObjectType where
  | Activity | IntransitiveActivity
  | Accept | Add | Announce | Arrive | Block | Create | Delete | Dislike
  | Flag | Follow | Ignore | Invite | Join | Leave | Like | Listen | Move
  | Offer | Question | Reject | Read | Remove | TentativeAccept
  | TentativeReject | Travel | Undo | Update | View
  | Actor
  | Application | Group | Organisation | Person | Service
  | Object
  | Article | Audio | Document | Event | Image | Note | Page | Place
  | Profile | Relationship | Tombstone | Video
  | Collection | CollectionPage | OrderedCollection | OrderedCollectionPage
deriving DecidableEq

/-- The wire spelling of each `ObjectType` variant (serde unit variants
serialize as their name string). -/
def ObjectType.toWire : ObjectType → String
  | .Activity => "Activity"
  | .IntransitiveActivity => "IntransitiveActivity"
  | .Accept => "Accept"
  | .Add => "Add"
  | .Announce => "Announce"
  | .Arrive => "Arrive"
  | .Block => "Block"
  | .Create => "Create"
  | .Delete => "Delete"
  | .Dislike => "Dislike"
  | .Flag => "Flag"
  | .Follow => "Follow"
  | .Ignore => "Ignore"
  | .Invite => "Invite"
  | .Join => "Join"
  | .Leave => "Leave"
  | .Like => "Like"
  | .Listen => "Listen"
  | .Move => "Move"
  | .Offer => "Offer"
  | .Question => "Question"
  | .Reject => "Reject"
  | .Read => "Read"
  | .Remove => "Remove"
  | .TentativeAccept => "TentativeAccept"
  | .TentativeReject => "TentativeReject"
  | .Travel => "Travel"
  | .Undo => "Undo"
  | .Update => "Update"
  | .View => "View"
  | .Actor => "Actor"
  | .Application => "Application"
  | .Group => "Group"
  | .Organisation => "Organisation"
  | .Person => "Person"
  | .Service => "Service"
  | .Object => "Object"
  | .Article => "Article"
  | .Audio => "Audio"
  | .Document => "Document"
  | .Event => "Event"
  | .Image => "Image"
  | .Note => "Note"
  | .Page => "Page"
  | .Place => "Place"
  | .Profile => "Profile"
  | .Relationship => "Relationship"
  | .Tombstone => "Tombstone"
  | .Video => "Video"
  | .Collection => "Collection"
  | .CollectionPage => "CollectionPage"
  | .OrderedCollection => "OrderedCollection"
  | .OrderedCollectionPage => "OrderedCollectionPage"

/-- The inverse wire mapping: which `ObjectType` a string denotes. -/
def ObjectType.ofWire : String → Option ObjectType
  | "Activity" => some .Activity
  | "IntransitiveActivity" => some .IntransitiveActivity
  | "Accept" => some .Accept
  | "Add" => some .Add
  | "Announce" => some .Announce
  | "Arrive" => some .Arrive
  | "Block" => some .Block
  | "Create" => some .Create
  | "Delete" => some .Delete
  | "Dislike" => some .Dislike
  | "Flag" => some .Flag
  | "Follow" => some .Follow
  | "Ignore" => some .Ignore
  | "Invite" => some .Invite
  | "Join" => some .Join
  | "Leave" => some .Leave
  | "Like" => some .Like
  | "Listen" => some .Listen
  | "Move" => some .Move
  | "Offer" => some .Offer
  | "Question" => some .Question
  | "Reject" => some .Reject
  | "Read" => some .Read
  | "Remove" => some .Remove
  | "TentativeAccept" => some .TentativeAccept
  | "TentativeReject" => some .TentativeReject
  | "Travel" => some .Travel
  | "Undo" => some .Undo
  | "Update" => some .Update
  | "View" => some .View
  | "Actor" => some .Actor
  | "Application" => some .Application
  | "Group" => some .Group
  | "Organisation" => some .Organisation
  | "Person" => some .Person
  | "Service" => some .Service
  | "Object" => some .Object
  | "Article" => some .Article
  | "Audio" => some .Audio
  | "Document" => some .Document
  | "Event" => some .Event
  | "Image" => some .Image
  | "Note" => some .Note
  | "Page" => some .Page
  | "Place" => some .Place
  | "Profile" => some .Profile
  | "Relationship" => some .Relationship
  | "Tombstone" => some .Tombstone
  | "Video" => some .Video
  | "Collection" => some .Collection
  | "CollectionPage" => some .CollectionPage
  | "OrderedCollection" => some .OrderedCollection
  | "OrderedCollectionPage" => some .OrderedCollectionPage
  | _ => none

def ObjectType.deserialize : Json → Option ObjectType
  | .str s => ObjectType.ofWire s
  | _ => none

/-- Deserialization of an `Option<String>` struct field that is present on
the wire: `null` gives `None`, a string gives `Some`, anything else is a
serde error. -/
def optStringDeserialize : Json → Option (Option String)
  | .null => some none
  | .str s => some (some s)
  | _ => none

/-- src/lib.rs `Object`: optional `id`, required `type`, and the
`#[serde(flatten)]` open tail `extra_fields`. -/
structure Object where
  id : Option String
  ty : ObjectType
  extra_fields : Json

/-- Derived `Deserialize` for `Object` (from a `serde_json::Value`): the
input must be a JSON object; `type` is required and must name an
`ObjectType`; `id`, when present, must be a string or null; every other
member is retained verbatim in `extra_fields` (always a JSON object). -/
def Object.deserialize (j : Json) : Except ParseError Object :=
  match j with
  | .obj m =>
    match mapGet "type" m with
    | none => .error (.missingField "type")
    | some tv =>
      match ObjectType.deserialize tv with
      | none => .error (.invalidField "type")
      | some ty =>
        match mapGet "id" m with
        | none => .ok ⟨none, ty, .obj (mapRemove "id" (mapRemove "type" m))⟩
        | some iv =>
          match optStringDeserialize iv with
          | none => .error (.invalidField "id")
          | some id => .ok ⟨id, ty, .obj (mapRemove "id" (mapRemove "type" m))⟩
  | _ => .error .notAnObject

/-- Derived `Serialize` for `Object`, as the member list it contributes
when flattened: `id` (omitted when `None` by `skip_serializing_if`), then
`type`, then the open-tail members.  Fails when the flattened
`extra_fields` is not a map. -/
def Object.serializeEntries (o : Object) : Except SerializeError (List (String × Json)) :=
  match o.extra_fields with
  | .obj m =>
    .ok ((match o.id with
          | none => []
          | some s => [("id", Json.str s)]) ++ ("type", Json.str o.ty.toWire) :: m)
  | _ => .error .cannotFlatten

/-- src/lib.rs `Object::get_field`: `extra_fields.as_object()` then `get`
then `serde_json::from_value(..).ok()`; `de` models the `T`-directed
`from_value(..).ok()`. -/
def Object.get_field (de : Json → Option α) (o : Object) (field : String) : Option α :=
  match o.extra_fields with
  | .obj m =>
    match mapGet field m with
    | some v => de v
    | none => none
  | _ => none

/-- src/lib.rs `Object::set_field`: `ser` models `serde_json::to_value(value)`
(`none` when the value is not JSON-representable, in which case nothing
happens); otherwise the entry is inserted into the open tail when the open
tail is a map, and silently ignored when it is not. -/
def Object.set_field (ser : Option Json) (o : Object) (field : String) : Object :=
  match ser with
  | some v =>
    match o.extra_fields with
    | .obj m => { o with extra_fields := .obj (mapInsert field v m) }
    | _ => o
  | none => o

/-- src/lib.rs `Object::extract`: `serde_json::from_value(extra_fields).ok()`. -/
def Object.extract (de : Json → Option α) (o : Object) : Option α :=
  de o.extra_fields

/-- src/lib.rs `LinkType`. -/
inductive LinkType where
  | Link | Mention
deriving DecidableEq

def LinkType.toWire : LinkType → String
  | .Link => "Link"
  | .Mention => "Mention"

def LinkType.ofWire : String → Option LinkType
  | "Link" => some .Link
  | "Mention" => some .Mention
  | _ => none

def LinkType.deserialize : Json → Option LinkType
  | .str s => LinkType.ofWire s
  | _ => none

/-- src/lib.rs `Link`: required `type` (a `LinkType`), optional `id`,
required `href` string, and the flattened open tail. -/
structure Link where
  ty : LinkType
  id : Option String
  href : String
  extra_fields : Json

/-- Derived `Deserialize` for `Link`. -/
def Link.deserialize (j : Json) : Except ParseError Link :=
  match j with
  | .obj m =>
    match mapGet "type" m with
    | none => .error (.missingField "type")
    | some tv =>
      match LinkType.deserialize tv with
      | none => .error (.invalidField "type")
      | some ty =>
        match mapGet "href" m with
        | none => .error (.missingField "href")
        | some hv =>
          match hv with
          | .str href =>
            match mapGet "id" m with
            | none =>
              .ok ⟨ty, none, href, .obj (mapRemove "href" (mapRemove "id" (mapRemove "type" m)))⟩
            | some iv =>
              match optStringDeserialize iv with
              | none => .error (.invalidField "id")
              | some id =>
                .ok ⟨ty, id, href, .obj (mapRemove "href" (mapRemove "id" (mapRemove "type" m)))⟩
          | _ => .error (.invalidField "href")
  | _ => .error .notAnObject

/-- src/lib.rs `Link::get_field` (same body as `Object::get_field`). -/
def Link.get_field (de : Json → Option α) (l : Link) (field : String) : Option α :=
  match l.extra_fields with
  | .obj m =>
    match mapGet field m with
    | some v => de v
    | none => none
  | _ => none

/-- src/lib.rs `Link::set_field` (same body as `Object::set_field`). -/
def Link.set_field (ser : Option Json) (l : Link) (field : String) : Link :=
  match ser with
  | some v =>
    match l.extra_fields with
    | .obj m => { l with extra_fields := .obj (mapInsert field v m) }
    | _ => l
  | none => l

/-- src/lib.rs `ObjectOrLink`: `#[serde(untagged)]` union of the two shapes. -/
inductive ObjectOrLink where
  | Object (o : Lib.Object)
  | Link (l : Lib.Link)

/-- Derived `Deserialize` for the untagged `ObjectOrLink`: serde tries the
variants in declaration order — `Object` first, then `Link`; if neither
shape matches the whole deserialization fails. -/
def ObjectOrLink.deserialize (j : Json) : Except ParseError ObjectOrLink :=
  match Object.deserialize j with
  | .ok o => .ok (.Object o)
  | .error _ =>
    match Link.deserialize j with
    | .ok l => .ok (.Link l)
    | .error _ => .error .noVariantMatched

/-- src/lib.rs `JsonLdDocument`: the required `@context` plus the flattened
embedded `Object` at the same JSON nesting level. -/
structure JsonLdDocument where
  context : Context
  object : Object

/-- Derived `Deserialize` for `JsonLdDocument`: `@context` is required and
must be a single string; the remaining members deserialize the flattened
`Object`. -/
def JsonLdDocument.deserialize (j : Json) : Except ParseError JsonLdDocument :=
  match j with
  | .obj m =>
    match mapGet "@context" m with
    | none => .error (.missingField "@context")
    | some cv =>
      match Context.deserialize cv with
      | none => .error (.invalidField "@context")
      | some ctx =>
        match Object.deserialize (.obj (mapRemove "@context" m)) with
        | .error e => .error e
        | .ok o => .ok ⟨ctx, o⟩
  | _ => .error .notAnObject

/-- Derived `Serialize` for `JsonLdDocument`: one flat JSON object holding
`@context`, then the embedded object's members. -/
def JsonLdDocument.serialize (d : JsonLdDocument) : Except SerializeError Json :=
  match Object.serializeEntries d.object with
  | .error e => .error e
  | .ok entries => .ok (.obj (("@context", Context.serialize d.context) :: entries))

/-- `serde_json::from_str` for `JsonLdDocument`, composed with the JSON
text codec: the codec (an external collaborator) yields `none` for
syntactically invalid text, `some j` for text denoting the value `j`. -/
def JsonLdDocument.from_str (t : Option Json) : Except ParseError JsonLdDocument :=
  match t with
  | none => .error .invalidText
  | some j => JsonLdDocument.deserialize j

end Lib

namespace Core

/-- src/core.rs `Error`: wraps the underlying serde_json error. -/
inductive Error where
  | Json (e : ParseError)

/-- src/core.rs `Context` (same shape as the lib one: `#[serde(untagged)]`
with the single variant `Simple(String)`). -/
inductive Context where
  | Simple (s : String)

def Context.deserialize : Json → Option Context
  | .str s => some (.Simple s)
  | _ => none

def Context.serialize : Context → Json
  | .Simple s => .str s

/-- src/core.rs `JsonLdDocument`: the required `@context` plus the
flattened open tail `extra_fields`. -/
structure JsonLdDocument where
  context : Context
  extra_fields : Json

/-- Derived `Deserialize` for the core `JsonLdDocument`. -/
def JsonLdDocument.deserialize (j : Json) : Except ParseError JsonLdDocument :=
  match j with
  | .obj m =>
    match mapGet "@context" m with
    | none => .error (.missingField "@context")
    | some cv =>
      match Context.deserialize cv with
      | none => .error (.invalidField "@context")
      | some ctx => .ok ⟨ctx, .obj (mapRemove "@context" m)⟩
  | _ => .error .notAnObject

/-- src/core.rs `JsonLdDocument::get_field` (same body as
`Object::get_field` in src/lib.rs). -/
def JsonLdDocument.get_field (de : Json → Option α) (d : JsonLdDocument)
    (field : String) : Option α :=
  match d.extra_fields with
  | .obj m =>
    match mapGet field m with
    | some v => de v
    | none => none
  | _ => none

/-- src/core.rs `JsonLdDocument::set_field` (same body as
`Object::set_field` in src/lib.rs). -/
def JsonLdDocument.set_field (ser : Option Json) (d : JsonLdDocument)
    (field : String) : JsonLdDocument :=
  match ser with
  | some v =>
    match d.extra_fields with
    | .obj m => { d with extra_fields := .obj (mapInsert field v m) }
    | _ => d
  | none => d

/-- src/core.rs `ActorType`. -/
inductive ActorType where
  | Application | Group | Organisation | Person | Service
deriving DecidableEq

def ActorType.toWire : ActorType → String
  | .Application => "Application"
  | .Group => "Group"
  | .Organisation => "Organisation"
  | .Person => "Person"
  | .Service => "Service"

def ActorType.ofWire : String → Option ActorType
  | "Application" => some .Application
  | "Group" => some .Group
  | "Organisation" => some .Organisation
  | "Person" => some .Person
  | "Service" => some .Service
  | _ => none

def ActorType.deserialize : Json → Option ActorType
  | .str s => ActorType.ofWire s
  | _ => none

/-- src/core.rs `Actor`: required `type` (an `ActorType`), required string
`inbox` and `outbox`, and the flattened open tail. -/
structure Actor where
  ty : ActorType
  inbox : String
  outbox : String
  extra_fields : Json

/-- Derived `Deserialize` for `Actor` (used by the `TryFrom` conversion via
`serde_json::from_value`). -/
def Actor.deserialize (j : Json) : Except ParseError Actor :=
  match j with
  | .obj m =>
    match mapGet "type" m with
    | none => .error (.missingField "type")
    | some tv =>
      match ActorType.deserialize tv with
      | none => .error (.invalidField "type")
      | some ty =>
        match mapGet "inbox" m with
        | none => .error (.missingField "inbox")
        | some (.str inbox) =>
          match mapGet "outbox" m with
          | none => .error (.missingField "outbox")
          | some (.str outbox) =>
            .ok ⟨ty, inbox, outbox,
              .obj (mapRemove "outbox" (mapRemove "inbox" (mapRemove "type" m)))⟩
          | some _ => .error (.invalidField "outbox")
        | some _ => .error (.invalidField "inbox")
  | _ => .error .notAnObject

/-- src/core.rs `impl TryFrom<JsonLdDocument> for Actor`: deserialize the
document's open tail as an `Actor`, then re-insert the document's
`@context` into the actor's open tail (when that tail is a map, which it
always is for a freshly deserialized actor). -/
def Actor.try_from (doc : JsonLdDocument) : Except Error Actor :=
  match Actor.deserialize doc.extra_fields with
  | .error e => .error (.Json e)
  | .ok a =>
    match a.extra_fields with
    | .obj m =>
      .ok { a with extra_fields := .obj (mapInsert "@context" (Context.serialize doc.context) m) }
    | _ => .ok a

/-- Derived `Serialize` for `Actor`: `type`, `inbox`, `outbox`, then the
open-tail members.  Fails when the flattened `extra_fields` is not a map. -/
def Actor.serialize (a : Actor) : Except SerializeError Json :=
  match a.extra_fields with
  | .obj m =>
    .ok (.obj (("type", Json.str a.ty.toWire) :: ("inbox", Json.str a.inbox)
      :: ("outbox", Json.str a.outbox) :: m))
  | _ => .error .cannotFlatten

end Core

/-! ## Claim-support definitions. -/

/-- The member stored for key `k` at the top level of a JSON value: the
open-tail / known-field member lookup in the claims' language (a value
that is not a JSON object has no members). -/
def Json.topGet (j : Json) (k : String) : Option Json :=
  match j with
  | .obj m => mapGet k m
  | _ => none

/-- `serde_json::from_value::<String>(v).ok()`: the `T = String` instance
of the type-directed conversion used by `get_field` callers. -/
def stringFromValue : Json → Option String
  | .str s => some s
  | _ => none

/-- Modelled from the spec: the spec's §4.2 description of `Extract` on a
Document — deserialize "the open tail plus re-merged known fields", i.e.
the full serialized document, as the aggregate.  The source's only extract
(`Object::extract` in src/lib.rs, `Lib.Object.extract` here) reads
`extra_fields` alone; this definition exists to compare the two. -/
def extractDocumentSpec (de : Json → Option α) (d : Lib.JsonLdDocument) : Option α :=
  match Lib.JsonLdDocument.serialize d with
  | .ok j => de j
  | .error _ => none

/-- `serde_json::from_value::<Json>(v).ok()` restricted to reading the
member named "type": a concrete aggregate conversion used to separate
`Object::extract` from the spec's re-merge description. -/
def typeMemberFromValue : Json → Option Json
  | .obj m => mapGet "type" m
  | _ => none

/-! ## Lemma layer: facts about the map operations and wire enumerations. -/

theorem mapGet_mapInsert_self (k : String) (v : Json) (m : List (String × Json)) :
    mapGet k (mapInsert k v m) = some v := by
  induction m with
  | nil => simp [mapInsert, mapGet]
  | cons hd tl ih =>
    obtain ⟨k', v'⟩ := hd
    by_cases h : k = k'
    · simp [mapInsert, h, mapGet]
    · by_cases h2 : k < k'
      · simp [mapInsert, h, h2, mapGet]
      · simpa [mapInsert, h, h2, mapGet, Ne.symm h] using ih

theorem mapGet_mapRemove_self (k : String) (m : List (String × Json)) :
    mapGet k (mapRemove k m) = none := by
  induction m with
  | nil => simp [mapRemove, mapGet]
  | cons hd tl ih =>
    obtain ⟨k', v'⟩ := hd
    by_cases h : k' = k
    · simpa [mapRemove, h] using ih
    · simpa [mapRemove, h, mapGet] using ih

theorem mapRemove_cons_eq {k k' : String} (v : Json) (tl : List (String × Json))
    (h : k = k') : mapRemove k' ((k, v) :: tl) = mapRemove k' tl := by
  rw [mapRemove, if_pos h]

theorem mapRemove_cons_ne {k k' : String} (v : Json) (tl : List (String × Json))
    (h : ¬ k = k') : mapRemove k' ((k, v) :: tl) = (k, v) :: mapRemove k' tl := by
  rw [mapRemove, if_neg h]

theorem mapGet_mapRemove_ne {k k' : String} (h : k ≠ k') (m : List (String × Json)) :
    mapGet k (mapRemove k' m) = mapGet k m := by
  induction m with
  | nil => rfl
  | cons hd tl ih =>
    obtain ⟨k'', v''⟩ := hd
    by_cases h1 : k'' = k'
    · have h2 : ¬ k'' = k := by
        intro hc
        exact h (by rw [← hc, h1])
      rw [mapRemove_cons_eq _ _ h1, ih]
      simp [mapGet, h2]
    · rw [mapRemove_cons_ne _ _ h1]
      by_cases h2 : k'' = k
      · simp [mapGet, h2]
      · simp [mapGet, h2, ih]

theorem mapRemove_eq_self_of_get_none {k : String} {m : List (String × Json)}
    (h : mapGet k m = none) : mapRemove k m = m := by
  induction m with
  | nil => rfl
  | cons hd tl ih =>
    obtain ⟨k', v'⟩ := hd
    rw [mapGet] at h
    by_cases h1 : k' = k
    · simp [h1] at h
    · simp [h1] at h
      rw [mapRemove_cons_ne _ _ h1, ih h]

theorem mapGet_eq_none_iff (k : String) (m : List (String × Json)) :
    mapGet k m = none ↔ k ∉ m.map Prod.fst := by
  induction m with
  | nil => simp [mapGet]
  | cons hd tl ih =>
    obtain ⟨k', v'⟩ := hd
    by_cases h1 : k' = k
    · subst h1
      simp [mapGet]
    · rw [mapGet, if_neg h1, ih]
      simp [Ne.symm h1]

theorem mapRemove_sublist (k : String) (m : List (String × Json)) :
    List.Sublist (mapRemove k m) m := by
  induction m with
  | nil => exact List.Sublist.refl _
  | cons hd tl ih =>
    obtain ⟨k', v⟩ := hd
    by_cases h : k' = k
    · rw [mapRemove, if_pos h]
      exact ih.trans (List.sublist_cons_self _ _)
    · rw [mapRemove, if_neg h]
      exact ih.cons₂ _

theorem nodup_keys_mapRemove (k : String) {m : List (String × Json)}
    (h : (m.map Prod.fst).Nodup) : ((mapRemove k m).map Prod.fst).Nodup :=
  (((mapRemove_sublist k m).map Prod.fst)).nodup h

theorem keys_mapInsert_fresh {k : String} (v : Json) {m : List (String × Json)}
    (hk : mapGet k m = none) :
    List.Perm ((mapInsert k v m).map Prod.fst) (k :: m.map Prod.fst) := by
  induction m with
  | nil => simp [mapInsert]
  | cons hd tl ih =>
    obtain ⟨k', v'⟩ := hd
    rw [mapGet] at hk
    by_cases h : k' = k
    · simp [h] at hk
    · simp only [h, if_false] at hk
      have h1 : ¬ k = k' := fun hc => h hc.symm
      by_cases h2 : k < k'
      · simp [mapInsert, h1, h2]
      · rw [mapInsert, if_neg h1, if_neg h2]
        simp only [List.map_cons]
        exact (List.Perm.cons k' (ih hk)).trans (List.Perm.swap k k' _)

theorem nodup_keys_mapInsert {k : String} (v : Json) {m : List (String × Json)}
    (hk : mapGet k m = none) (h : (m.map Prod.fst).Nodup) :
    ((mapInsert k v m).map Prod.fst).Nodup := by
  refine ((keys_mapInsert_fresh v hk).nodup_iff).mpr ?_
  exact List.Nodup.cons ((mapGet_eq_none_iff k m).mp hk) h

theorem mapGet_mapInsert_ne {k k' : String} (h : k ≠ k') (v : Json)
    (m : List (String × Json)) : mapGet k (mapInsert k' v m) = mapGet k m := by
  induction m with
  | nil => simp [mapInsert, mapGet, Ne.symm h]
  | cons hd tl ih =>
    obtain ⟨k'', v''⟩ := hd
    by_cases h1 : k' = k''
    · have h2 : ¬ k'' = k := fun hc => h (by rw [hc] at h1; exact h1.symm ▸ rfl)
      rw [mapInsert, if_pos h1]
      simp [mapGet, Ne.symm h, h2, h1]
    · by_cases h2 : k' < k''
      · rw [mapInsert, if_neg h1, if_pos h2]
        simp [mapGet, Ne.symm h]
      · rw [mapInsert, if_neg h1, if_neg h2]
        simp [mapGet, ih]

theorem objectType_ofWire_toWire (t : Lib.ObjectType) : Lib.ObjectType.ofWire t.toWire = some t := by
  cases t <;> rfl

/-! ## Claim theorems. -/

/-- C6: `SetField` never fails visibly (it is a total function on every
entity, name and value) and mutates only the open tail: the known typed
fields of every entity carrying a `set_field` — `id`/`type` on `Object`,
`type`/`id`/`href` on `Link`, `context` on the core `JsonLdDocument` — are
unchanged by every `set_field` call, even when the written name collides
with a known field's wire name (the quantifier over `field` covers "type",
"id", "href" and "@context" themselves). -/
theorem set_field_preserves_known_fields :
    (∀ (ser : Option Json) (o : Lib.Object) (field : String),
       (Lib.Object.set_field ser o field).id = o.id ∧
       (Lib.Object.set_field ser o field).ty = o.ty) ∧
    (∀ (ser : Option Json) (l : Lib.Link) (field : String),
       (Lib.Link.set_field ser l field).ty = l.ty ∧
       (Lib.Link.set_field ser l field).id = l.id ∧
       (Lib.Link.set_field ser l field).href = l.href) ∧
    (∀ (ser : Option Json) (d : Core.JsonLdDocument) (field : String),
       (Core.JsonLdDocument.set_field ser d field).context = d.context) := by
  refine ⟨fun ser o field => ?_, fun ser l field => ?_, fun ser d field => ?_⟩
  · obtain ⟨id, ty, ef⟩ := o
    cases ser <;> cases ef <;> simp [Lib.Object.set_field]
  · obtain ⟨ty, id, href, ef⟩ := l
    cases ser <;> cases ef <;> simp [Lib.Link.set_field]
  · obtain ⟨ctx, ef⟩ := d
    cases ser <;> cases ef <;> simp [Core.JsonLdDocument.set_field]

/-- C5: for every entity and field name, `get_field` returns `none` (its
result type is `Option`, so no error can surface) in exactly two cases:
the name is not a member of the entity's open tail, or the member's value
does not convert to the requested type; both cases produce the same
`none`, so they are indistinguishable to the caller.  Proved for
`Object::get_field` (src/lib.rs) and `JsonLdDocument::get_field`
(src/core.rs). -/
theorem get_field_none_iff :
    (∀ (α : Type) (de : Json → Option α) (o : Lib.Object) (field : String),
       Lib.Object.get_field de o field = none ↔
         (Json.topGet o.extra_fields field = none ∨
          ∃ v, Json.topGet o.extra_fields field = some v ∧ de v = none)) ∧
    (∀ (α : Type) (de : Json → Option α) (d : Core.JsonLdDocument) (field : String),
       Core.JsonLdDocument.get_field de d field = none ↔
         (Json.topGet d.extra_fields field = none ∨
          ∃ v, Json.topGet d.extra_fields field = some v ∧ de v = none)) := by
  constructor
  · intro α de o field
    obtain ⟨id, ty, ef⟩ := o
    cases ef <;> simp [Lib.Object.get_field, Json.topGet]
    case obj m =>
      cases hg : mapGet field m <;> simp [hg]
  · intro α de d field
    obtain ⟨ctx, ef⟩ := d
    cases ef <;> simp [Core.JsonLdDocument.get_field, Json.topGet]
    case obj m =>
      cases hg : mapGet field m <;> simp [hg]

/-- C3: GetField after SetField.  For any entity whose open tail is a map,
any field name, and any value `v` that converts losslessly to and from its
type (`de (toJ v) = some v`, where `toJ` models `serde_json::to_value` and
`de` models `serde_json::from_value(..).ok()`), writing the field and
reading it back yields `some v`. -/
theorem get_field_after_set_field (α : Type) (toJ : α → Json) (de : Json → Option α)
    (v : α) (o : Lib.Object) (m : List (String × Json)) (field : String)
    (hm : o.extra_fields = .obj m) (hlossless : de (toJ v) = some v) :
    Lib.Object.get_field de (Lib.Object.set_field (some (toJ v)) o field) field = some v := by
  obtain ⟨id, ty, ef⟩ := o
  simp only [] at hm
  subst hm
  simp [Lib.Object.set_field, Lib.Object.get_field, mapGet_mapInsert_self, hlossless]

/-- Witness for C3 at the concrete instance `T = String`. -/
theorem get_field_after_set_field_witness :
    Lib.Object.get_field stringFromValue
      (Lib.Object.set_field (some (Json.str "This is a note"))
        (⟨none, .Note, .obj []⟩ : Lib.Object) "content") "content" =
      some "This is a note" :=
  get_field_after_set_field String Json.str stringFromValue "This is a note"
    ⟨none, .Note, .obj []⟩ [] "content" rfl rfl

/-- C4 counterexample: the spec says that for a Document, `Extract`
deserializes "the open tail plus re-merged known fields"; the code's only
extract (`Object::extract`) reads the open tail alone.  On the document
parsed from a body with `type: Person` and an empty open tail, an
aggregate conversion that reads the "type" member succeeds on the
re-merged value demanded by the spec but `extract` returns `none`. -/
theorem extract_document_remerge_counterexample :
    Lib.Object.extract typeMemberFromValue
      (Lib.JsonLdDocument.mk (.Simple "https://www.w3.org/ns/activitystreams")
        ⟨none, .Person, .obj []⟩).object = none ∧
    extractDocumentSpec typeMemberFromValue
      (Lib.JsonLdDocument.mk (.Simple "https://www.w3.org/ns/activitystreams")
        ⟨none, .Person, .obj []⟩) = some (Json.str "Person") ∧
    Lib.Object.extract typeMemberFromValue
      (Lib.JsonLdDocument.mk (.Simple "https://www.w3.org/ns/activitystreams")
        ⟨none, .Person, .obj []⟩).object ≠
    extractDocumentSpec typeMemberFromValue
      (Lib.JsonLdDocument.mk (.Simple "https://www.w3.org/ns/activitystreams")
        ⟨none, .Person, .obj []⟩) := by
  refine ⟨rfl, rfl, ?_⟩
  intro h
  have h' : (none : Option Json) = some (Json.str "Person") := h
  exact Option.noConfusion h'

/-- C4 amended: `Extract` attempts to deserialize exactly the entity's open
tail as a single aggregate — for a Document too, the known fields are not
re-merged — returning the conversion's `some` on success and `none` (not
an error) on failure; the result depends only on the open tail. -/
theorem extract_open_tail_only (α : Type) (de : Json → Option α)
    (d : Lib.JsonLdDocument) :
    Lib.Object.extract de d.object = de d.object.extra_fields ∧
    (∀ d' : Lib.JsonLdDocument, d'.object.extra_fields = d.object.extra_fields →
       Lib.Object.extract de d'.object = Lib.Object.extract de d.object) := by
  refine ⟨rfl, fun d' h => ?_⟩
  simp [Lib.Object.extract, h]

/-- Witness for C4's amended theorem: two documents with different known
fields but the same (empty) open tail extract identically. -/
theorem extract_open_tail_only_witness :
    Lib.Object.extract typeMemberFromValue
      (Lib.JsonLdDocument.mk (.Simple "https://www.w3.org/ns/activitystreams")
        ⟨none, .Person, .obj []⟩).object =
      typeMemberFromValue (Json.obj []) ∧
    Lib.Object.extract typeMemberFromValue
      (Lib.JsonLdDocument.mk (.Simple "other") ⟨some "i", .Note, .obj []⟩).object =
    Lib.Object.extract typeMemberFromValue
      (Lib.JsonLdDocument.mk (.Simple "https://www.w3.org/ns/activitystreams")
        ⟨none, .Person, .obj []⟩).object :=
  ⟨(extract_open_tail_only Json typeMemberFromValue
      (Lib.JsonLdDocument.mk (.Simple "https://www.w3.org/ns/activitystreams")
        ⟨none, .Person, .obj []⟩)).1,
   (extract_open_tail_only Json typeMemberFromValue
      (Lib.JsonLdDocument.mk (.Simple "https://www.w3.org/ns/activitystreams")
        ⟨none, .Person, .obj []⟩)).2
     (Lib.JsonLdDocument.mk (.Simple "other") ⟨some "i", .Note, .obj []⟩) rfl⟩

/-- C7: the untagged `ObjectOrLink` union is resolved structurally, Object
shape first: every input that deserializes as an `Object` yields the
`Object` variant, and an input that fails as `Object` but deserializes as
a `Link` yields the `Link` variant.  No discriminant member is consulted. -/
theorem object_or_link_ordered_resolution (j : Json) :
    (∀ o : Lib.Object, Lib.Object.deserialize j = .ok o →
       Lib.ObjectOrLink.deserialize j = .ok (.Object o)) ∧
    (∀ (e : ParseError) (l : Lib.Link), Lib.Object.deserialize j = .error e →
       Lib.Link.deserialize j = .ok l →
       Lib.ObjectOrLink.deserialize j = .ok (.Link l)) := by
  constructor
  · intro o ho
    simp [Lib.ObjectOrLink.deserialize, ho]
  · intro e l he hl
    simp [Lib.ObjectOrLink.deserialize, he, hl]

/-- Witness for C7: a Note-shaped input resolves to the Object variant; an
input whose `type` is "Link" (not an `ObjectType`) with an `href` fails
the Object shape and resolves to the Link variant. -/
theorem object_or_link_ordered_resolution_witness :
    Lib.ObjectOrLink.deserialize (.obj [("type", .str "Note")]) =
      .ok (.Object ⟨none, .Note, .obj []⟩) ∧
    Lib.ObjectOrLink.deserialize
        (.obj [("href", .str "https://example.org/abc"), ("type", .str "Link")]) =
      .ok (.Link ⟨.Link, none, "https://example.org/abc", .obj []⟩) :=
  ⟨(object_or_link_ordered_resolution (.obj [("type", .str "Note")])).1
     ⟨none, .Note, .obj []⟩ rfl,
   (object_or_link_ordered_resolution
       (.obj [("href", .str "https://example.org/abc"), ("type", .str "Link")])).2
     (.invalidField "type") ⟨.Link, none, "https://example.org/abc", .obj []⟩ rfl rfl⟩

theorem object_deserialize_tail_shape {j : Json} {o : Lib.Object}
    (h : Lib.Object.deserialize j = .ok o) : ∃ m, o.extra_fields = .obj m := by
  rcases j with _ | b | n | s | el | m
  case obj =>
    simp only [Lib.Object.deserialize] at h
    rcases htv : mapGet "type" m with _ | tv
    · simp only [htv] at h
      cases h
    simp only [htv] at h
    rcases hty : Lib.ObjectType.deserialize tv with _ | ty
    · simp only [hty] at h
      cases h
    simp only [hty] at h
    rcases hid : mapGet "id" m with _ | iv
    · simp only [hid] at h
      cases h
      exact ⟨_, rfl⟩
    simp only [hid] at h
    rcases hos : Lib.optStringDeserialize iv with _ | i
    · simp only [hos] at h
      cases h
    simp only [hos] at h
    cases h
    exact ⟨_, rfl⟩
  all_goals exact Except.noConfusion h

theorem link_deserialize_tail_shape {j : Json} {l : Lib.Link}
    (h : Lib.Link.deserialize j = .ok l) : ∃ m, l.extra_fields = .obj m := by
  rcases j with _ | b | n | s | el | m
  case obj =>
    simp only [Lib.Link.deserialize] at h
    rcases htv : mapGet "type" m with _ | tv
    · simp only [htv] at h
      cases h
    simp only [htv] at h
    rcases hty : Lib.LinkType.deserialize tv with _ | ty
    · simp only [hty] at h
      cases h
    simp only [hty] at h
    rcases hhv : mapGet "href" m with _ | hv
    · simp only [hhv] at h
      cases h
    simp only [hhv] at h
    rcases hv with _ | b' | n' | href | el' | m'
    case str =>
      rcases hid : mapGet "id" m with _ | iv
      · simp only [hid] at h
        cases h
        exact ⟨_, rfl⟩
      simp only [hid] at h
      rcases hos : Lib.optStringDeserialize iv with _ | i
      · simp only [hos] at h
        cases h
      simp only [hos] at h
      cases h
      exact ⟨_, rfl⟩
    all_goals cases h
  all_goals exact Except.noConfusion h

theorem lib_document_deserialize_object_ok {j : Json} {d : Lib.JsonLdDocument}
    (h : Lib.JsonLdDocument.deserialize j = .ok d) :
    ∃ j', Lib.Object.deserialize j' = .ok d.object := by
  rcases j with _ | b | n | s | el | m
  case obj =>
    simp only [Lib.JsonLdDocument.deserialize] at h
    rcases hcv : mapGet "@context" m with _ | cv
    · simp only [hcv] at h
      cases h
    simp only [hcv] at h
    rcases hctx : Lib.Context.deserialize cv with _ | ctx
    · simp only [hctx] at h
      cases h
    simp only [hctx] at h
    rcases hobj : Lib.Object.deserialize (.obj (mapRemove "@context" m)) with e | o
    · simp only [hobj] at h
      cases h
    simp only [hobj] at h
    cases h
    exact ⟨_, hobj⟩
  all_goals exact Except.noConfusion h

theorem core_document_deserialize_tail_shape {j : Json} {d : Core.JsonLdDocument}
    (h : Core.JsonLdDocument.deserialize j = .ok d) : ∃ m, d.extra_fields = .obj m := by
  rcases j with _ | b | n | s | el | m
  case obj =>
    simp only [Core.JsonLdDocument.deserialize] at h
    rcases hcv : mapGet "@context" m with _ | cv
    · simp only [hcv] at h
      cases h
    simp only [hcv] at h
    rcases hctx : Core.Context.deserialize cv with _ | ctx
    · simp only [hctx] at h
      cases h
    simp only [hctx] at h
    cases h
    exact ⟨_, rfl⟩
  all_goals exact Except.noConfusion h

/-- C9: every entity produced by a successful parse has an open tail that
is a JSON object mapping; consequently `set_field`'s silent no-op branch
for a non-mapping tail is unreachable on parse-produced entities, and
every `set_field` with a JSON-convertible value on such an entity really
inserts or overwrites the member. -/
theorem parse_produces_mapping_tails :
    (∀ (j : Json) (d : Lib.JsonLdDocument), Lib.JsonLdDocument.deserialize j = .ok d →
       (∃ m, d.object.extra_fields = .obj m) ∧
       (∀ (v : Json) (field : String), ∃ m',
          (Lib.Object.set_field (some v) d.object field).extra_fields = .obj m' ∧
          mapGet field m' = some v)) ∧
    (∀ (j : Json) (l : Lib.Link), Lib.Link.deserialize j = .ok l →
       ∃ m, l.extra_fields = .obj m) ∧
    (∀ (j : Json) (d : Core.JsonLdDocument), Core.JsonLdDocument.deserialize j = .ok d →
       (∃ m, d.extra_fields = .obj m) ∧
       (∀ (v : Json) (field : String), ∃ m',
          (Core.JsonLdDocument.set_field (some v) d field).extra_fields = .obj m' ∧
          mapGet field m' = some v)) := by
  refine ⟨fun j d h => ?_, fun j l h => link_deserialize_tail_shape h, fun j d h => ?_⟩
  · obtain ⟨j', hj'⟩ := lib_document_deserialize_object_ok h
    obtain ⟨m, hm⟩ := object_deserialize_tail_shape hj'
    refine ⟨⟨m, hm⟩, fun v field => ?_⟩
    refine ⟨mapInsert field v m, ?_, mapGet_mapInsert_self field v m⟩
    simp [Lib.Object.set_field, hm]
  · obtain ⟨m, hm⟩ := core_document_deserialize_tail_shape h
    refine ⟨⟨m, hm⟩, fun v field => ?_⟩
    refine ⟨mapInsert field v m, ?_, mapGet_mapInsert_self field v m⟩
    simp [Core.JsonLdDocument.set_field, hm]

/-- Witness for C9 at concrete parses: the spec's example Person document,
a bare Link, and a core document with an (empty) open tail. -/
theorem parse_produces_mapping_tails_witness :
    (∃ m, ((⟨.Simple "https://www.w3.org/ns/activitystreams",
        ⟨none, .Person, .obj []⟩⟩ : Lib.JsonLdDocument)).object.extra_fields = .obj m) ∧
    (∃ m', (Lib.Object.set_field (some (.str "alyssa"))
        ((⟨.Simple "https://www.w3.org/ns/activitystreams",
          ⟨none, .Person, .obj []⟩⟩ : Lib.JsonLdDocument)).object "name").extra_fields =
          .obj m' ∧ mapGet "name" m' = some (.str "alyssa")) ∧
    (∃ m, (⟨.Link, none, "https://example.org/abc", .obj []⟩ : Lib.Link).extra_fields =
      .obj m) ∧
    (∃ m, ((⟨.Simple "https://www.w3.org/ns/activitystreams", .obj []⟩ :
        Core.JsonLdDocument)).extra_fields = .obj m) :=
  ⟨(parse_produces_mapping_tails.1
      (.obj [("@context", .str "https://www.w3.org/ns/activitystreams"),
             ("type", .str "Person")])
      ⟨.Simple "https://www.w3.org/ns/activitystreams", ⟨none, .Person, .obj []⟩⟩ rfl).1,
   (parse_produces_mapping_tails.1
      (.obj [("@context", .str "https://www.w3.org/ns/activitystreams"),
             ("type", .str "Person")])
      ⟨.Simple "https://www.w3.org/ns/activitystreams", ⟨none, .Person, .obj []⟩⟩ rfl).2
     (.str "alyssa") "name",
   parse_produces_mapping_tails.2.1
     (.obj [("href", .str "https://example.org/abc"), ("type", .str "Link")])
     ⟨.Link, none, "https://example.org/abc", .obj []⟩ rfl,
   (parse_produces_mapping_tails.2.2
      (.obj [("@context", .str "https://www.w3.org/ns/activitystreams")])
      ⟨.Simple "https://www.w3.org/ns/activitystreams", .obj []⟩ rfl).1⟩

/-- C2: `TryFrom<JsonLdDocument> for Actor` (src/core.rs).  For every
document whose open tail carries a well-typed `type` (an `ActorType`
string), a string `inbox` and a string `outbox`, the conversion succeeds;
the actor's `inbox`/`outbox` (and `type`) equal the source document's, and
the actor's open tail carries an `@context` member equal to the source
document's serialized context.  When `type`, `inbox` or `outbox` is
missing or ill-typed, the conversion fails with the core error type
(`ConversionError`). -/
theorem to_actor_conversion (doc : Core.JsonLdDocument) (m : List (String × Json))
    (hm : doc.extra_fields = .obj m) :
    (∀ (tv : Json) (aty : Core.ActorType) (ib ob : String),
       mapGet "type" m = some tv → Core.ActorType.deserialize tv = some aty →
       mapGet "inbox" m = some (.str ib) → mapGet "outbox" m = some (.str ob) →
       ∃ a : Core.Actor, Core.Actor.try_from doc = .ok a ∧
         a.ty = aty ∧ a.inbox = ib ∧ a.outbox = ob ∧
         ∃ e, a.extra_fields = .obj e ∧
           mapGet "@context" e = some (Core.Context.serialize doc.context)) ∧
    ((mapGet "type" m = none ∨
      (∃ tv, mapGet "type" m = some tv ∧ Core.ActorType.deserialize tv = none) ∨
      mapGet "inbox" m = none ∨
      (∃ v, mapGet "inbox" m = some v ∧ ∀ s, v ≠ .str s) ∨
      mapGet "outbox" m = none ∨
      (∃ v, mapGet "outbox" m = some v ∧ ∀ s, v ≠ .str s)) →
     ∃ err, Core.Actor.try_from doc = .error err) := by
  constructor
  · intro tv aty ib ob htv haty hib hob
    refine ⟨⟨aty, ib, ob, .obj (mapInsert "@context" (Core.Context.serialize doc.context)
      (mapRemove "outbox" (mapRemove "inbox" (mapRemove "type" m))))⟩, ?_, rfl, rfl, rfl,
      _, rfl, mapGet_mapInsert_self _ _ _⟩
    simp only [Core.Actor.try_from, Core.Actor.deserialize, hm, htv, haty, hib, hob]
  · intro hbad
    rcases htv : mapGet "type" m with _ | tv
    · exact ⟨.Json (.missingField "type"), by
        simp only [Core.Actor.try_from, Core.Actor.deserialize, hm, htv]⟩
    rcases haty : Core.ActorType.deserialize tv with _ | aty
    · exact ⟨.Json (.invalidField "type"), by
        simp only [Core.Actor.try_from, Core.Actor.deserialize, hm, htv, haty]⟩
    rcases hib : mapGet "inbox" m with _ | iv
    · exact ⟨.Json (.missingField "inbox"), by
        simp only [Core.Actor.try_from, Core.Actor.deserialize, hm, htv, haty, hib]⟩
    rcases iv with _ | b | n | s | el | mm
    case str =>
      rcases hob : mapGet "outbox" m with _ | ov
      · exact ⟨.Json (.missingField "outbox"), by
          simp only [Core.Actor.try_from, Core.Actor.deserialize, hm, htv, haty, hib, hob]⟩
      rcases ov with _ | b2 | n2 | s2 | el2 | mm2
      case str =>
        exfalso
        rcases hbad with h | ⟨tv', h1, h2⟩ | h | ⟨v, h1, h2⟩ | h | ⟨v, h1, h2⟩
        · rw [htv] at h
          cases h
        · rw [htv] at h1
          injection h1 with h1'
          subst h1'
          rw [haty] at h2
          cases h2
        · rw [hib] at h
          cases h
        · rw [hib] at h1
          injection h1 with h1'
          exact h2 s h1'.symm
        · rw [hob] at h
          cases h
        · rw [hob] at h1
          injection h1 with h1'
          exact h2 s2 h1'.symm
      all_goals exact ⟨.Json (.invalidField "outbox"), by
        simp only [Core.Actor.try_from, Core.Actor.deserialize, hm, htv, haty, hib, hob]⟩
    all_goals exact ⟨.Json (.invalidField "inbox"), by
      simp only [Core.Actor.try_from, Core.Actor.deserialize, hm, htv, haty, hib]⟩

/-- Witness for C2: the spec's example actor document converts
successfully, and a document lacking `inbox` is rejected. -/
theorem to_actor_conversion_witness :
    (∃ a : Core.Actor,
       Core.Actor.try_from
         (⟨.Simple "https://www.w3.org/ns/activitystreams",
           .obj [("inbox", .str "https://ex/ib/"), ("outbox", .str "https://ex/ob/"),
                 ("type", .str "Person")]⟩ : Core.JsonLdDocument) = .ok a ∧
       a.ty = .Person ∧ a.inbox = "https://ex/ib/" ∧ a.outbox = "https://ex/ob/" ∧
       ∃ e, a.extra_fields = .obj e ∧
         mapGet "@context" e = some (Core.Context.serialize
           (.Simple "https://www.w3.org/ns/activitystreams"))) ∧
    (∃ err, Core.Actor.try_from
       (⟨.Simple "https://www.w3.org/ns/activitystreams",
         .obj [("type", .str "Person")]⟩ : Core.JsonLdDocument) = .error err) :=
  ⟨(to_actor_conversion
      (⟨.Simple "https://www.w3.org/ns/activitystreams",
        .obj [("inbox", .str "https://ex/ib/"), ("outbox", .str "https://ex/ob/"),
              ("type", .str "Person")]⟩ : Core.JsonLdDocument)
      [("inbox", .str "https://ex/ib/"), ("outbox", .str "https://ex/ob/"),
       ("type", .str "Person")] rfl).1
     (.str "Person") .Person "https://ex/ib/" "https://ex/ob/" rfl rfl rfl rfl,
   (to_actor_conversion
      (⟨.Simple "https://www.w3.org/ns/activitystreams",
        .obj [("type", .str "Person")]⟩ : Core.JsonLdDocument)
      [("type", .str "Person")] rfl).2
     (Or.inr (Or.inr (Or.inl rfl)))⟩

/-- C10 (implicit): after a successful `TryFrom<JsonLdDocument> for Actor`
conversion the wire keys `type`, `inbox` and `outbox` are absent from the
actor's open tail (hoisted into the typed fields); the tail is exactly the
source document's remaining open-tail members plus the re-inserted
`@context`; and re-serializing the actor emits every key exactly once
(the emitted key list is duplicate-free). -/
theorem to_actor_hoists_known_fields (doc : Core.JsonLdDocument)
    (m : List (String × Json)) (tv : Json) (aty : Core.ActorType) (ib ob : String)
    (hm : doc.extra_fields = .obj m)
    (hnodup : (m.map Prod.fst).Nodup)
    (hctx : mapGet "@context" m = none)
    (htv : mapGet "type" m = some tv) (haty : Core.ActorType.deserialize tv = some aty)
    (hib : mapGet "inbox" m = some (.str ib)) (hob : mapGet "outbox" m = some (.str ob)) :
    ∃ (a : Core.Actor) (e : List (String × Json)),
      Core.Actor.try_from doc = .ok a ∧
      a.extra_fields = .obj e ∧
      mapGet "type" e = none ∧ mapGet "inbox" e = none ∧ mapGet "outbox" e = none ∧
      e = mapInsert "@context" (Core.Context.serialize doc.context)
            (mapRemove "outbox" (mapRemove "inbox" (mapRemove "type" m))) ∧
      ∃ entries, Core.Actor.serialize a = .ok (.obj entries) ∧
        (entries.map Prod.fst).Nodup := by
  have hctxr : mapGet "@context"
      (mapRemove "outbox" (mapRemove "inbox" (mapRemove "type" m))) = none := by
    rw [mapGet_mapRemove_ne (by decide), mapGet_mapRemove_ne (by decide),
        mapGet_mapRemove_ne (by decide), hctx]
  have htyper : mapGet "type" (mapInsert "@context" (Core.Context.serialize doc.context)
      (mapRemove "outbox" (mapRemove "inbox" (mapRemove "type" m)))) = none := by
    rw [mapGet_mapInsert_ne (by decide), mapGet_mapRemove_ne (by decide),
        mapGet_mapRemove_ne (by decide), mapGet_mapRemove_self]
  have hinr : mapGet "inbox" (mapInsert "@context" (Core.Context.serialize doc.context)
      (mapRemove "outbox" (mapRemove "inbox" (mapRemove "type" m)))) = none := by
    rw [mapGet_mapInsert_ne (by decide), mapGet_mapRemove_ne (by decide),
        mapGet_mapRemove_self]
  have houtr : mapGet "outbox" (mapInsert "@context" (Core.Context.serialize doc.context)
      (mapRemove "outbox" (mapRemove "inbox" (mapRemove "type" m)))) = none := by
    rw [mapGet_mapInsert_ne (by decide), mapGet_mapRemove_self]
  have hnodupr : ((mapInsert "@context" (Core.Context.serialize doc.context)
      (mapRemove "outbox" (mapRemove "inbox" (mapRemove "type" m)))).map Prod.fst).Nodup :=
    nodup_keys_mapInsert _ hctxr
      (nodup_keys_mapRemove _ (nodup_keys_mapRemove _ (nodup_keys_mapRemove _ hnodup)))
  have ht := (mapGet_eq_none_iff _ _).mp htyper
  have hi := (mapGet_eq_none_iff _ _).mp hinr
  have ho := (mapGet_eq_none_iff _ _).mp houtr
  refine ⟨⟨aty, ib, ob, .obj (mapInsert "@context" (Core.Context.serialize doc.context)
      (mapRemove "outbox" (mapRemove "inbox" (mapRemove "type" m))))⟩,
    mapInsert "@context" (Core.Context.serialize doc.context)
      (mapRemove "outbox" (mapRemove "inbox" (mapRemove "type" m))),
    ?_, rfl, htyper, hinr, houtr, rfl,
    ("type", Json.str aty.toWire) :: ("inbox", Json.str ib) :: ("outbox", Json.str ob)
      :: mapInsert "@context" (Core.Context.serialize doc.context)
           (mapRemove "outbox" (mapRemove "inbox" (mapRemove "type" m))), rfl, ?_⟩
  · simp only [Core.Actor.try_from, Core.Actor.deserialize, hm, htv, haty, hib, hob]
  · simp [List.nodup_cons, List.mem_cons, ht, hi, ho, hnodupr]

/-- Witness for C10 on the spec's example actor document. -/
theorem to_actor_hoists_known_fields_witness :
    ∃ (a : Core.Actor) (e : List (String × Json)),
      Core.Actor.try_from
        (⟨.Simple "https://www.w3.org/ns/activitystreams",
          .obj [("inbox", .str "https://ex/ib/"), ("outbox", .str "https://ex/ob/"),
                ("type", .str "Person")]⟩ : Core.JsonLdDocument) = .ok a ∧
      a.extra_fields = .obj e ∧
      mapGet "type" e = none ∧ mapGet "inbox" e = none ∧ mapGet "outbox" e = none ∧
      e = mapInsert "@context" (Core.Context.serialize
            (.Simple "https://www.w3.org/ns/activitystreams"))
            (mapRemove "outbox" (mapRemove "inbox" (mapRemove "type"
              [("inbox", .str "https://ex/ib/"), ("outbox", .str "https://ex/ob/"),
               ("type", .str "Person")]))) ∧
      ∃ entries, Core.Actor.serialize a = .ok (.obj entries) ∧
        (entries.map Prod.fst).Nodup :=
  to_actor_hoists_known_fields
    (⟨.Simple "https://www.w3.org/ns/activitystreams",
      .obj [("inbox", .str "https://ex/ib/"), ("outbox", .str "https://ex/ob/"),
            ("type", .str "Person")]⟩ : Core.JsonLdDocument)
    [("inbox", .str "https://ex/ib/"), ("outbox", .str "https://ex/ob/"),
     ("type", .str "Person")]
    (.str "Person") .Person "https://ex/ib/" "https://ex/ob/"
    rfl (by decide) rfl rfl rfl rfl rfl

theorem lib_context_roundtrip (c : Lib.Context) :
    Lib.Context.deserialize (Lib.Context.serialize c) = some c := by
  cases c
  rfl

theorem lib_objectType_roundtrip (ty : Lib.ObjectType) :
    Lib.ObjectType.deserialize (.str (Lib.ObjectType.toWire ty)) = some ty := by
  simp [Lib.ObjectType.deserialize, objectType_ofWire_toWire]

/-- C1: for every `JsonLdDocument` obtained by a successful parse of some
JSON value, serializing it and parsing the result back yields exactly the
original document — every open-tail member is preserved, and the equality
is the structural one on the model's maps (which refines serde_json's
key-order-independent map equality). -/
theorem document_roundtrip (j : Json) (d : Lib.JsonLdDocument)
    (h : Lib.JsonLdDocument.deserialize j = .ok d) :
    ∃ t, Lib.JsonLdDocument.serialize d = .ok t ∧
         Lib.JsonLdDocument.deserialize t = .ok d := by
  rcases j with _ | b | n | s | el | m
  case obj =>
    simp only [Lib.JsonLdDocument.deserialize] at h
    rcases hcv : mapGet "@context" m with _ | cv
    · simp only [hcv] at h
      cases h
    simp only [hcv] at h
    rcases hctx : Lib.Context.deserialize cv with _ | ctx
    · simp only [hctx] at h
      cases h
    simp only [hctx] at h
    simp only [Lib.Object.deserialize] at h
    rcases htv : mapGet "type" (mapRemove "@context" m) with _ | tv
    · simp only [htv] at h
      cases h
    simp only [htv] at h
    rcases hty : Lib.ObjectType.deserialize tv with _ | ty
    · simp only [hty] at h
      cases h
    simp only [hty] at h
    have hea : mapGet "@context"
        (mapRemove "id" (mapRemove "type" (mapRemove "@context" m))) = none := by
      rw [mapGet_mapRemove_ne (by decide), mapGet_mapRemove_ne (by decide),
          mapGet_mapRemove_self]
    have het : mapGet "type"
        (mapRemove "id" (mapRemove "type" (mapRemove "@context" m))) = none := by
      rw [mapGet_mapRemove_ne (by decide), mapGet_mapRemove_self]
    have hei : mapGet "id"
        (mapRemove "id" (mapRemove "type" (mapRemove "@context" m))) = none :=
      mapGet_mapRemove_self _ _
    have heaeq := mapRemove_eq_self_of_get_none hea
    have heteq := mapRemove_eq_self_of_get_none het
    have heieq := mapRemove_eq_self_of_get_none hei
    rcases hid : mapGet "id" (mapRemove "@context" m) with _ | iv
    · simp only [hid] at h
      cases h
      refine ⟨_, rfl, ?_⟩
      simp [Lib.JsonLdDocument.serialize, Lib.Object.serializeEntries,
        Lib.JsonLdDocument.deserialize, Lib.Object.deserialize,
        mapGet, mapRemove, lib_context_roundtrip, lib_objectType_roundtrip,
        heaeq, heteq, heieq, hea, het, hei]
    simp only [hid] at h
    rcases hos : Lib.optStringDeserialize iv with _ | i
    · simp only [hos] at h
      cases h
    simp only [hos] at h
    cases h
    rcases i with _ | s
    · refine ⟨_, rfl, ?_⟩
      simp [Lib.JsonLdDocument.serialize, Lib.Object.serializeEntries,
        Lib.JsonLdDocument.deserialize, Lib.Object.deserialize,
        mapGet, mapRemove, lib_context_roundtrip, lib_objectType_roundtrip,
        heaeq, heteq, heieq, hea, het, hei]
    · refine ⟨_, rfl, ?_⟩
      simp [Lib.JsonLdDocument.serialize, Lib.Object.serializeEntries,
        Lib.JsonLdDocument.deserialize, Lib.Object.deserialize, Lib.optStringDeserialize,
        mapGet, mapRemove, lib_context_roundtrip, lib_objectType_roundtrip,
        heaeq, heteq, heieq, hea, het, hei]
  all_goals exact Except.noConfusion h

/-- Witness for C1 on a document with an `id` and an open-tail member. -/
theorem document_roundtrip_witness :
    ∃ t, Lib.JsonLdDocument.serialize
      (⟨.Simple "https://www.w3.org/ns/activitystreams",
        ⟨some "https://social.example/alyssa/", .Person,
         .obj [("name", .str "Alyssa P. Hacker")]⟩⟩ : Lib.JsonLdDocument) = .ok t ∧
    Lib.JsonLdDocument.deserialize t =
      .ok (⟨.Simple "https://www.w3.org/ns/activitystreams",
        ⟨some "https://social.example/alyssa/", .Person,
         .obj [("name", .str "Alyssa P. Hacker")]⟩⟩ : Lib.JsonLdDocument) :=
  document_roundtrip
    (.obj [("@context", .str "https://www.w3.org/ns/activitystreams"),
           ("id", .str "https://social.example/alyssa/"),
           ("name", .str "Alyssa P. Hacker"),
           ("type", .str "Person")])
    (⟨.Simple "https://www.w3.org/ns/activitystreams",
      ⟨some "https://social.example/alyssa/", .Person,
       .obj [("name", .str "Alyssa P. Hacker")]⟩⟩ : Lib.JsonLdDocument)
    rfl

theorem lib_document_deserialize_error_iff (j : Json) :
    (∃ e, Lib.JsonLdDocument.deserialize j = .error e) ↔
      (Json.topGet j "@context" = none ∨
       (∃ v, Json.topGet j "@context" = some v ∧ Lib.Context.deserialize v = none) ∨
       Json.topGet j "type" = none ∨
       (∃ v, Json.topGet j "type" = some v ∧ Lib.ObjectType.deserialize v = none) ∨
       (∃ v, Json.topGet j "id" = some v ∧ Lib.optStringDeserialize v = none)) := by
  rcases j with _ | b | n | s | el | m
  case obj =>
    have e1 : mapGet "type" (mapRemove "@context" m) = mapGet "type" m :=
      mapGet_mapRemove_ne (by decide) m
    have e2 : mapGet "id" (mapRemove "@context" m) = mapGet "id" m :=
      mapGet_mapRemove_ne (by decide) m
    rcases hcv : mapGet "@context" m with _ | cv
    · refine iff_of_true ?_ (Or.inl (by simp [Json.topGet, hcv]))
      exact ⟨.missingField "@context", by simp only [Lib.JsonLdDocument.deserialize, hcv]⟩
    rcases hctx : Lib.Context.deserialize cv with _ | ctx
    · refine iff_of_true ?_ (Or.inr (Or.inl ⟨cv, by simp [Json.topGet, hcv], hctx⟩))
      exact ⟨.invalidField "@context",
        by simp only [Lib.JsonLdDocument.deserialize, hcv, hctx]⟩
    rcases htv : mapGet "type" m with _ | tv
    · refine iff_of_true ?_ (Or.inr (Or.inr (Or.inl (by simp [Json.topGet, htv]))))
      exact ⟨.missingField "type", by simp only [Lib.JsonLdDocument.deserialize,
        Lib.Object.deserialize, hcv, hctx, e1, htv]⟩
    rcases hty : Lib.ObjectType.deserialize tv with _ | ty
    · refine iff_of_true ?_
        (Or.inr (Or.inr (Or.inr (Or.inl ⟨tv, by simp [Json.topGet, htv], hty⟩))))
      exact ⟨.invalidField "type", by simp only [Lib.JsonLdDocument.deserialize,
        Lib.Object.deserialize, hcv, hctx, e1, htv, hty]⟩
    rcases hid : mapGet "id" m with _ | iv
    · refine iff_of_false ?_ ?_
      · rintro ⟨e, he⟩
        simp only [Lib.JsonLdDocument.deserialize, Lib.Object.deserialize,
          hcv, hctx, e1, htv, hty, e2, hid] at he
        cases he
      · rintro (h | ⟨v, h1, h2⟩ | h | ⟨v, h1, h2⟩ | ⟨v, h1, h2⟩)
        · simp [Json.topGet, hcv] at h
        · simp only [Json.topGet, hcv, Option.some.injEq] at h1
          subst h1
          rw [hctx] at h2
          cases h2
        · simp [Json.topGet, htv] at h
        · simp only [Json.topGet, htv, Option.some.injEq] at h1
          subst h1
          rw [hty] at h2
          cases h2
        · simp [Json.topGet, hid] at h1
    rcases hos : Lib.optStringDeserialize iv with _ | i
    · refine iff_of_true ?_
        (Or.inr (Or.inr (Or.inr (Or.inr ⟨iv, by simp [Json.topGet, hid], hos⟩))))
      exact ⟨.invalidField "id", by simp only [Lib.JsonLdDocument.deserialize,
        Lib.Object.deserialize, hcv, hctx, e1, htv, hty, e2, hid, hos]⟩
    · refine iff_of_false ?_ ?_
      · rintro ⟨e, he⟩
        simp only [Lib.JsonLdDocument.deserialize, Lib.Object.deserialize,
          hcv, hctx, e1, htv, hty, e2, hid, hos] at he
        cases he
      · rintro (h | ⟨v, h1, h2⟩ | h | ⟨v, h1, h2⟩ | ⟨v, h1, h2⟩)
        · simp [Json.topGet, hcv] at h
        · simp only [Json.topGet, hcv, Option.some.injEq] at h1
          subst h1
          rw [hctx] at h2
          cases h2
        · simp [Json.topGet, htv] at h
        · simp only [Json.topGet, htv, Option.some.injEq] at h1
          subst h1
          rw [hty] at h2
          cases h2
        · simp only [Json.topGet, hid, Option.some.injEq] at h1
          subst h1
          rw [hos] at h2
          cases h2
  all_goals
    refine iff_of_true ⟨.notAnObject, rfl⟩ (Or.inl rfl)

theorem link_deserialize_error_iff (j : Json) :
    (∃ e, Lib.Link.deserialize j = .error e) ↔
      (Json.topGet j "type" = none ∨
       (∃ v, Json.topGet j "type" = some v ∧ Lib.LinkType.deserialize v = none) ∨
       Json.topGet j "href" = none ∨
       (∃ v, Json.topGet j "href" = some v ∧ ∀ s, v ≠ .str s) ∨
       (∃ v, Json.topGet j "id" = some v ∧ Lib.optStringDeserialize v = none)) := by
  rcases j with _ | b | n | s | el | m
  case obj =>
    rcases htv : mapGet "type" m with _ | tv
    · exact iff_of_true ⟨.missingField "type",
        by simp only [Lib.Link.deserialize, htv]⟩ (Or.inl (by simp [Json.topGet, htv]))
    rcases hty : Lib.LinkType.deserialize tv with _ | ty
    · exact iff_of_true ⟨.invalidField "type",
        by simp only [Lib.Link.deserialize, htv, hty]⟩
        (Or.inr (Or.inl ⟨tv, by simp [Json.topGet, htv], hty⟩))
    rcases hhv : mapGet "href" m with _ | hv
    · exact iff_of_true ⟨.missingField "href",
        by simp only [Lib.Link.deserialize, htv, hty, hhv]⟩
        (Or.inr (Or.inr (Or.inl (by simp [Json.topGet, hhv]))))
    rcases hv with _ | b2 | n2 | s2 | el2 | m2
    case str =>
      rcases hid : mapGet "id" m with _ | iv
      · refine iff_of_false ?_ ?_
        · rintro ⟨e, he⟩
          simp only [Lib.Link.deserialize, htv, hty, hhv, hid] at he
          cases he
        · rintro (h | ⟨v, h1, h2⟩ | h | ⟨v, h1, h2⟩ | ⟨v, h1, h2⟩)
          · simp [Json.topGet, htv] at h
          · simp only [Json.topGet, htv, Option.some.injEq] at h1
            subst h1
            rw [hty] at h2
            cases h2
          · simp [Json.topGet, hhv] at h
          · simp only [Json.topGet, hhv, Option.some.injEq] at h1
            exact h2 s2 h1.symm
          · simp [Json.topGet, hid] at h1
      rcases hos : Lib.optStringDeserialize iv with _ | i
      · exact iff_of_true ⟨.invalidField "id",
          by simp only [Lib.Link.deserialize, htv, hty, hhv, hid, hos]⟩
          (Or.inr (Or.inr (Or.inr (Or.inr ⟨iv, by simp [Json.topGet, hid], hos⟩))))
      · refine iff_of_false ?_ ?_
        · rintro ⟨e, he⟩
          simp only [Lib.Link.deserialize, htv, hty, hhv, hid, hos] at he
          cases he
        · rintro (h | ⟨v, h1, h2⟩ | h | ⟨v, h1, h2⟩ | ⟨v, h1, h2⟩)
          · simp [Json.topGet, htv] at h
          · simp only [Json.topGet, htv, Option.some.injEq] at h1
            subst h1
            rw [hty] at h2
            cases h2
          · simp [Json.topGet, hhv] at h
          · simp only [Json.topGet, hhv, Option.some.injEq] at h1
            exact h2 s2 h1.symm
          · simp only [Json.topGet, hid, Option.some.injEq] at h1
            subst h1
            rw [hos] at h2
            cases h2
    case null =>
      exact iff_of_true
        ⟨.invalidField "href", by simp only [Lib.Link.deserialize, htv, hty, hhv]⟩
        (Or.inr (Or.inr (Or.inr (Or.inl
          ⟨.null, by simp [Json.topGet, hhv], by simp⟩))))
    case bool =>
      exact iff_of_true
        ⟨.invalidField "href", by simp only [Lib.Link.deserialize, htv, hty, hhv]⟩
        (Or.inr (Or.inr (Or.inr (Or.inl
          ⟨.bool b2, by simp [Json.topGet, hhv], by simp⟩))))
    case num =>
      exact iff_of_true
        ⟨.invalidField "href", by simp only [Lib.Link.deserialize, htv, hty, hhv]⟩
        (Or.inr (Or.inr (Or.inr (Or.inl
          ⟨.num n2, by simp [Json.topGet, hhv], by simp⟩))))
    case arr =>
      exact iff_of_true
        ⟨.invalidField "href", by simp only [Lib.Link.deserialize, htv, hty, hhv]⟩
        (Or.inr (Or.inr (Or.inr (Or.inl
          ⟨.arr el2, by simp [Json.topGet, hhv], by simp⟩))))
    case obj =>
      exact iff_of_true
        ⟨.invalidField "href", by simp only [Lib.Link.deserialize, htv, hty, hhv]⟩
        (Or.inr (Or.inr (Or.inr (Or.inl
          ⟨.obj m2, by simp [Json.topGet, hhv], by simp⟩))))
  all_goals exact iff_of_true ⟨.notAnObject, rfl⟩ (Or.inl rfl)

/-- C8: Parse fails exactly when the text is syntactically invalid JSON
(the codec yields no value), when a required known field is missing
(`@context` for a document — also covering non-object inputs, which have
no members at all — `type` for the embedded object, `href` for a link), or
when a known field's value cannot convert to its declared type: a `type`
outside the closed enumeration, an `@context` that is not a single string
(arrays and objects fail closed), a non-string `href`, or an `id` that is
neither a string nor null. -/
theorem parse_error_characterization :
    (∀ t : Option Json,
       (∃ e, Lib.JsonLdDocument.from_str t = .error e) ↔
         (t = none ∨ ∃ j, t = some j ∧
           (Json.topGet j "@context" = none ∨
            (∃ v, Json.topGet j "@context" = some v ∧ Lib.Context.deserialize v = none) ∨
            Json.topGet j "type" = none ∨
            (∃ v, Json.topGet j "type" = some v ∧ Lib.ObjectType.deserialize v = none) ∨
            (∃ v, Json.topGet j "id" = some v ∧ Lib.optStringDeserialize v = none)))) ∧
    (∀ j : Json,
       (∃ e, Lib.Link.deserialize j = .error e) ↔
         (Json.topGet j "type" = none ∨
          (∃ v, Json.topGet j "type" = some v ∧ Lib.LinkType.deserialize v = none) ∨
          Json.topGet j "href" = none ∨
          (∃ v, Json.topGet j "href" = some v ∧ ∀ s, v ≠ .str s) ∨
          (∃ v, Json.topGet j "id" = some v ∧ Lib.optStringDeserialize v = none))) := by
  constructor
  · intro t
    rcases t with _ | j
    · exact iff_of_true ⟨.invalidText, rfl⟩ (Or.inl rfl)
    · rw [show Lib.JsonLdDocument.from_str (some j) =
            Lib.JsonLdDocument.deserialize j from rfl,
          lib_document_deserialize_error_iff j]
      simp
  · exact link_deserialize_error_iff
